import Mathlib

/-!
# Verification of trappy/utils.py

Shallow embedding of the two timeseries utilities in `trappy/utils.py`
(`handle_duplicate_index` and `squash_into_window`) and proofs about them.

Timestamps are modelled as rationals, a pandas Series / one-column DataFrame as a
list of (timestamp, value) rows (for `squash_into_window`) or as an index list
paired with a value list (for `handle_duplicate_index`, which touches only the
index).  Fallible steps (the `except IndexError` branch, a possible
`ZeroDivisionError`, the reindex call) are modelled with `Except`.
-/

attribute [local semireducible] Rat.add Rat.sub Rat.mul Rat.inv Rat.ofScientific

instance {ε α : Type} [DecidableEq ε] [DecidableEq α] : DecidableEq (Except ε α) := fun
  | .error a, .error b =>
      if h : a = b then isTrue (h ▸ rfl) else isFalse fun hc => h (Except.error.inj hc)
  | .error _, .ok _ => isFalse fun hc => Except.noConfusion hc
  | .ok _, .error _ => isFalse fun hc => Except.noConfusion hc
  | .ok a, .ok b =>
      if h : a = b then isTrue (h ▸ rfl) else isFalse fun hc => h (Except.ok.inj hc)

/-- A pandas `Series`: a timestamp index plus a value column, as used by
`handle_duplicate_index`. -/
structure PSeries (α : Type) where
  index : List ℚ
  values : List α
  deriving DecidableEq, Repr

/-- numpy `a.searchsorted(v, side="left")` for a sorted array `a`: the leftmost
insertion point of `v`, i.e. the number of elements strictly below `v`. -/
def searchsorted_left (a : List ℚ) (v : ℚ) : Nat :=
  (a.filter (fun x => x < v)).length

/-- numpy `a.searchsorted(v, side="right")` for a sorted array `a`: the rightmost
insertion point of `v`, i.e. the number of elements at or below `v`. -/
def searchsorted_right (a : List ℚ) (v : ℚ) : Nat :=
  (a.filter (fun x => x ≤ v)).length

/-- Insert into a sorted list (helper for the ascending sort used by
`get_duplicates`). -/
def insert_sorted (x : ℚ) : List ℚ → List ℚ
  | [] => [x]
  | y :: ys => if x ≤ y then x :: y :: ys else y :: insert_sorted x ys

/-- Ascending insertion sort (Python `sorted`). -/
def sort_asc (l : List ℚ) : List ℚ := l.foldr insert_sorted []

/-- pandas `Index.get_duplicates()`: the distinct values that occur more than
once in the index, in ascending order. -/
def get_duplicates (idx : List ℚ) : List ℚ :=
  sort_asc (idx.dedup.filter (fun d => 2 ≤ idx.count d))

/-- The inner `while` loop of `handle_duplicate_index`
(` new_index[dup_index_left] += delta; delta += delta; dup_index_left += 1 `):
starting at position `p`, run `k` iterations, each adding the current `delta`
to the element in place and then doubling `delta`. -/
def add_dup_deltas : List ℚ → Nat → Nat → ℚ → List ℚ
  | cur, _, 0, _ => cur
  | cur, p, Nat.succ k, delta =>
      add_dup_deltas (cur.set p (cur.getD p 0 + delta)) (p + 1) k (delta + delta)

/-- The body of the `for dup in dups` loop of `handle_duplicate_index`, acting on
the current state of the (aliased, already partially mutated) index array:
compute the duplicate run boundaries with `searchsorted`, derive `delta` from
the next entry (`max_delta` on `IndexError`, i.e. when the run ends the array;
an unhandled `ZeroDivisionError` if the run is empty), clamp it to `max_delta`,
and add doubling deltas to all entries of the run but the first. -/
def process_dup (max_delta : ℚ) (cur : List ℚ) (dup : ℚ) : Except String (List ℚ) :=
  let l := searchsorted_left cur dup
  let sr := searchsorted_right cur dup
  let num := sr - l
  let delta0E : Except String ℚ :=
    if h : sr < cur.length then
      if num = 0 then Except.error "ZeroDivisionError"
      else Except.ok ((cur.get ⟨sr, h⟩ - dup) / (num : ℚ))
    else
      Except.ok max_delta
  match delta0E with
  | Except.error e => Except.error e
  | Except.ok delta0 =>
      let delta := if max_delta < delta0 then max_delta else delta0
      Except.ok (add_dup_deltas cur (l + 1) (num - 1) delta)

/-- The `new_index` array at the end of `handle_duplicate_index`.  In the Python
code `new_index = index.values` aliases the backing array of the series index,
so every `new_index[i] += delta` is visible to the subsequent `searchsorted`
calls; the fold threads that single mutable array through the loop. -/
def hdi_new_index (idx : List ℚ) (max_delta : ℚ) : Except String (List ℚ) :=
  (get_duplicates idx).foldlM (process_dup max_delta) idx

/-- The caller's index after `handle_duplicate_index` returns: because
`new_index = index.values` aliases the caller's index buffer, the in-place
`+= delta` writes mutate the caller's series, leaving its index equal to the
computed `new_index`. -/
def hdi_caller_index_after (idx : List ℚ) (max_delta : ℚ) : Except String (List ℚ) :=
  hdi_new_index idx max_delta

/-- pandas `Series.reindex(target)` as called at the end of
`handle_duplicate_index`.  `Index.reindex` first tests `self.equals(target)` and
returns the data unchanged in that case; only otherwise does it require a unique
index ("cannot reindex from a duplicate axis") and align by label.  At this call
site the target is the series' own index array (`new_index` aliases
`index.values`), so the equality fast path is always taken; the label-alignment
branch, which can never be reached from this call, is represented by an error. -/
def reindex_self {α : Type} (s : PSeries α) (target : List ℚ) : Except String (PSeries α) :=
  if s.index = target then Except.ok ⟨target, s.values⟩
  else Except.error "reindex with non-identical labels unreachable at this call site"

/-- `handle_duplicate_index(data, max_delta)`: compute the adjusted index (the
caller's series index is mutated to it through the aliased array) and reindex. -/
def handle_duplicate_index {α : Type} (data : PSeries α) (max_delta : ℚ) :
    Except String (PSeries α) := do
  let new_index ← hdi_new_index data.index max_delta
  reindex_self ⟨new_index, data.values⟩ new_index

/-- The clamped per-group delta computed by `handle_duplicate_index` for a
duplicate group of `n` entries at value `d` followed by the rows `B`
(source lines 93-99): `(ceiling - d) / n` when a next entry (the ceiling)
exists, `max_delta` on the IndexError when the group ends the series, then
clamped from above by `max_delta`. -/
def hdi_group_delta (B : List ℚ) (d : ℚ) (n : Nat) (max_delta : ℚ) : ℚ :=
  match B with
  | [] => max_delta
  | b :: _ =>
    let delta0 := (b - d) / (n : ℚ)
    if max_delta < delta0 then max_delta else delta0

/-- `df[(df.index >= start_time) & (df.index < end_time)]` in
`squash_into_window`: boolean-mask selection, keeping row order.  A one-column
DataFrame is a list of (timestamp, value) rows. -/
def window_df {α : Type} (df : List (ℚ × α)) (start_time end_time : ℚ) : List (ℚ × α) :=
  df.filter (fun p => start_time ≤ p.1 ∧ p.1 < end_time)

/-- `first_event_df = df[df.index < start_time].iloc[-1:]` followed by the
relabeling `first_event_df.index = [start_time]` (a no-op when the selection is
empty): the last row before the window, its timestamp bumped to the window
start. -/
def first_event_head {α : Type} (df : List (ℚ × α)) (start_time : ℚ) : List (ℚ × α) :=
  match (df.filter (fun p => p.1 < start_time)).getLast? with
  | some p => [(start_time, p.2)]
  | none => []

/-- `last_event_df = df[df.index <= end_time].iloc[-1:]` followed by the
relabeling `last_event_df.index = [end_time]`, applied to the concatenated
frame `df2`: the last row at or before the window end, its timestamp bumped to
the window end. -/
def last_event_tail {α : Type} (df2 : List (ℚ × α)) (end_time : ℚ) : List (ℚ × α) :=
  match (df2.filter (fun p => p.1 ≤ end_time)).getLast? with
  | some p => [(end_time, p.2)]
  | none => []

/-- `squash_into_window(df, window)`: restrict a step-function series to a
window, synthesizing boundary rows.  The end-boundary row is selected from the
already concatenated `first_event ++ window` frame (the Python code rebinds
`df = pd.concat([first_event_df, window_df])`), not from the original input. -/
def squash_into_window {α : Type} (df : List (ℚ × α)) (window : ℚ × ℚ) : List (ℚ × α) :=
  let start_time := window.1
  let end_time := window.2
  let df2 := first_event_head df start_time ++ window_df df start_time end_time
  df2 ++ last_event_tail df2 end_time

/-! ## Concrete evaluations settling the false claims -/

/-- Claim C1: the output of handle_duplicate_index is claimed to have strictly
increasing timestamps for every sorted input and max_delta > 0.  The code
violates this: on index [0,0,0,0,4] with max_delta = 100 the doubling offsets
1, 2, 4 push the fourth duplicate onto the ceiling, yielding [0,1,2,4,4],
which still contains two equal timestamps. -/
theorem hdi_uniqueness_bug :
    handle_duplicate_index ⟨[0, 0, 0, 0, 4], [10, 20, 30, 40, 50]⟩ 100 =
      Except.ok (⟨[0, 1, 2, 4, 4], [10, 20, 30, 40, 50]⟩ : PSeries ℤ) ∧
    ¬ List.Pairwise (fun a b : ℚ => a < b) [0, 1, 2, 4, 4] := by decide

/-- Claim C2: every output timestamp is claimed to lie within max_delta of its
original timestamp.  The code violates this: on index [1,1,1] with
max_delta = 1 the while loop doubles delta after each write, moving the third
entry from 1 to 3, a distance of 2 > max_delta. -/
theorem hdi_max_delta_bug :
    hdi_new_index [1, 1, 1] 1 = Except.ok [1, 2, 3] ∧
    ¬ ((3:ℚ) - 1 ≤ 1) := by decide

/-- Claim C3: no output timestamp is claimed to exceed the next distinct
original timestamp (the ceiling).  The code violates this: on index
[0,0,0,0,0,5] with max_delta = 100 the per-entry delta is (5-0)/5 = 1 and the
doubling offsets 1, 2, 4, 8 push the fifth duplicate to 8, past the ceiling 5
(the output is not even sorted any more). -/
theorem hdi_ceiling_bug :
    hdi_new_index [0, 0, 0, 0, 0, 5] 100 = Except.ok [0, 1, 2, 4, 8, 5] ∧
    (5:ℚ) < 8 := by decide

/-- Claim C4, counterexample: the claim predicts cumulative offsets
delta, 3*delta, 7*delta (k-th adjusted entry at d + (2^k - 1)*delta).  On
index [5,5,5] with max_delta = 2 (group at the end of the series, so
delta = max_delta = 2) the code produces [5,7,9]: the second adjusted entry is
at 5 + 2*delta = 9, not at 5 + 3*delta = 11 as claimed. -/
theorem hdi_offsets_counterexample :
    hdi_new_index [5, 5, 5] 2 = Except.ok [5, 7, 9] ∧
    (9:ℚ) ≠ 5 + (2 ^ 2 - 1) * 2 := by decide

/-- Claim C5, counterexample: handle_duplicate_index is claimed not to mutate
the caller's data.  But new_index = index.values aliases the caller's index
buffer, so the in-place += delta writes change the caller's series: after the
call on index [1,1] with max_delta = 1 the caller's index is [1,2], not the
original [1,1]. -/
theorem hdi_mutates_caller_index :
    hdi_caller_index_after [1, 1] 1 = Except.ok [1, 2] ∧
    hdi_caller_index_after [1, 1] 1 ≠ Except.ok [1, 1] := by decide

/-- Claim C7, counterexample: the value of the output entry at the window end is
claimed to be the value of the last input entry with timestamp at or before
end.  On input [(0,5),(2,7)] with window (1,2) the last input entry at or
before end = 2 is (2,7), but the entry exactly at end is excluded from the
window slice (index < end) and from the head, so the code returns
[(1,5),(2,5)], carrying value 5, not 7. -/
theorem squash_end_value_counterexample :
    squash_into_window [((0:ℚ), (5:ℤ)), (2, 7)] (1, 2) = [(1, 5), (2, 5)] ∧
    (([((0:ℚ), (5:ℤ)), (2, 7)].filter (fun q => q.1 ≤ 2)).getLast?).map Prod.snd =
      some 7 ∧
    (5:ℤ) ≠ 7 := by decide

/-- Claim C8, counterexample: the output is claimed to contain an entry at end
whenever some input entry has timestamp at or before end.  On input [(2,7)]
with window (1,2) the entry at timestamp 2 is at or before end = 2, yet it is
excluded both from the window slice (index < end) and from the head
(index < start), so the output is empty and contains no entry at end. -/
theorem squash_end_coverage_counterexample :
    squash_into_window [((2:ℚ), (7:ℤ))] (1, 2) = [] ∧ ((2:ℚ) ≤ 2) := by decide

/-- Claim C9, counterexample: handle_duplicate_index is claimed to raise an
InvalidInput error for an unsorted series or non-positive max_delta.  The code
performs no validation at all: on the unsorted series [2,1] with
max_delta = -1 it returns a result without any error. -/
theorem no_invalid_input_error_counterexample :
    handle_duplicate_index ⟨[2, 1], [10, 20]⟩ (-1) =
      Except.ok (⟨[2, 1], [10, 20]⟩ : PSeries ℤ) := by decide

/-- Claim C9 (amended): neither function validates its inputs.
handle_duplicate_index processes an unsorted series with a non-positive
max_delta without raising, and squash_into_window processes a window with
start > end without raising (returning just the relabeled pre-start row). -/
theorem no_input_validation :
    handle_duplicate_index ⟨[3, 1], [1, 2]⟩ (-2) =
      Except.ok (⟨[3, 1], [1, 2]⟩ : PSeries ℤ) ∧
    squash_into_window [((0:ℚ), (5:ℤ))] (2, 1) = [(2, 5)] := by decide

/-- Claim C10, counterexample: with an input entry before start and one exactly
at start, the output is claimed to contain the relabeled pre-window entry
followed by the original entry at start.  With window (1,1) (start = end) on
input [(0,5),(1,6)] the entry (1,6) at start is excluded from the window slice
(index < end = start), so the output is [(1,5),(1,5)] - two relabeled copies of
the pre-window entry - and the original entry (1,6) does not appear at all. -/
theorem squash_double_start_counterexample :
    squash_into_window [((0:ℚ), (5:ℤ)), (1, 6)] (1, 1) = [(1, 5), (1, 5)] ∧
    ((1:ℚ), (6:ℤ)) ∉ squash_into_window [((0:ℚ), (5:ℤ)), (1, 6)] (1, 1) := by decide

/-! ## Universal properties -/

/-- Claim C5 (amended): squash_into_window builds its output purely from copies,
but handle_duplicate_index writes the adjusted timestamps into the caller's
index in place (new_index = index.values aliases the index buffer), so the
caller's series is changed whenever duplicates are adjusted; only for a series
with no duplicate timestamps is the caller's index left unchanged.  Values are
never touched. -/
theorem hdi_nodup_preserves_caller_index (idx : List ℚ) (max_delta : ℚ)
    (h : idx.Nodup) : hdi_caller_index_after idx max_delta = Except.ok idx := by
  have hdup : get_duplicates idx = [] := by
    unfold get_duplicates
    have hnil : idx.dedup.filter (fun d => 2 ≤ idx.count d) = [] := by
      apply List.filter_eq_nil_iff.mpr
      intro d _
      have hcount := List.nodup_iff_count_le_one.mp h d
      simp only [decide_eq_true_eq]
      omega
    rw [hnil]
    rfl
  unfold hdi_caller_index_after hdi_new_index
  rw [hdup]
  rfl

theorem hdi_nodup_preserves_caller_index_witness :
    hdi_caller_index_after [1, 2, 3] 1 = Except.ok [1, 2, 3] :=
  hdi_nodup_preserves_caller_index [1, 2, 3] 1 (by decide)

/-- Claim C6: whenever handle_duplicate_index returns a series, that series
carries exactly the input's value column, in the same order: only the index is
rewritten, and the final reindex takes the equality fast path (the target array
is the series' own mutated index), so it keeps the values in place. -/
theorem hdi_preserves_values {α : Type} (data : PSeries α) (max_delta : ℚ)
    (out : PSeries α) (h : handle_duplicate_index data max_delta = Except.ok out) :
    out.values = data.values := by
  unfold handle_duplicate_index at h
  cases hni : hdi_new_index data.index max_delta with
  | error e =>
      rw [hni] at h
      exact Except.noConfusion h
  | ok ni =>
      rw [hni] at h
      have h2 : reindex_self (⟨ni, data.values⟩ : PSeries α) ni = Except.ok out := h
      unfold reindex_self at h2
      rw [if_pos rfl] at h2
      cases h2
      rfl

theorem hdi_preserves_values_witness :
    (⟨[1, 2], [10, 20]⟩ : PSeries ℤ).values = (⟨[1, 1], [10, 20]⟩ : PSeries ℤ).values :=
  hdi_preserves_values ⟨[1, 1], [10, 20]⟩ 1 ⟨[1, 2], [10, 20]⟩ (by decide)

/-- The last element of a nonempty list, as an option value. -/
lemma exists_getLast?_of_ne_nil {α : Type} : ∀ (l : List α), l ≠ [] → ∃ a, l.getLast? = some a
  | [x], _ => ⟨x, rfl⟩
  | x :: y :: t, _ => by
      obtain ⟨a, ha⟩ := exists_getLast?_of_ne_nil (y :: t) (by simp)
      exact ⟨a, by rw [List.getLast?_cons_cons, ha]⟩

lemma first_event_head_eq {α : Type} {df : List (ℚ × α)} {s : ℚ} {p : ℚ × α}
    (h : (df.filter (fun q => q.1 < s)).getLast? = some p) :
    first_event_head df s = [(s, p.2)] := by
  unfold first_event_head
  rw [h]

/-- Every row of the concatenated `first_event ++ window` frame has timestamp at
most the window end, so the tail selection `df2[df2.index <= end_time]` keeps
the whole frame. -/
lemma df2_filter_le_eq_self {α : Type} (df : List (ℚ × α)) (s e : ℚ) (hse : s ≤ e) :
    (first_event_head df s ++ window_df df s e).filter (fun q => decide (q.1 ≤ e))
      = first_event_head df s ++ window_df df s e := by
  apply List.filter_eq_self.mpr
  intro q hq
  rcases List.mem_append.mp hq with h1 | h2
  · unfold first_event_head at h1
    rcases hF : (df.filter (fun r => decide (r.1 < s))).getLast? with _ | a
    · rw [hF] at h1
      exact absurd h1 (List.not_mem_nil q)
    · rw [hF] at h1
      have hq' : q = (s, a.2) := by simpa using h1
      rw [hq']
      simpa using hse
  · have hq2 := (List.mem_filter.mp h2).2
    simp only [decide_eq_true_eq] at hq2 ⊢
    exact le_of_lt hq2.2

/-- Claim C8 (amended): the output always has an entry exactly at start when
some input entry lies strictly before start, and an entry exactly at end when
some input entry lies strictly before end (an input entry exactly at end does
not count: it is excluded both from the window slice and from the head). -/
theorem squash_window_coverage {α : Type} (df : List (ℚ × α)) (s e : ℚ) (hse : s ≤ e) :
    ((∃ p ∈ df, p.1 < s) → ∃ q ∈ squash_into_window df (s, e), q.1 = s) ∧
    ((∃ p ∈ df, p.1 < e) → ∃ q ∈ squash_into_window df (s, e), q.1 = e) := by
  have hsq : squash_into_window df (s, e)
      = (first_event_head df s ++ window_df df s e)
        ++ last_event_tail (first_event_head df s ++ window_df df s e) e := rfl
  constructor
  · rintro ⟨p, hp, hps⟩
    have hpm : p ∈ df.filter (fun q => decide (q.1 < s)) :=
      List.mem_filter.mpr ⟨hp, by simpa using hps⟩
    obtain ⟨a, ha⟩ := exists_getLast?_of_ne_nil _ (List.ne_nil_of_mem hpm)
    refine ⟨(s, a.2), ?_, rfl⟩
    rw [hsq, first_event_head_eq ha]
    exact List.mem_append_left _ (List.mem_append_left _ (by simp))
  · rintro ⟨p, hp, hpe⟩
    have hdf2 : first_event_head df s ++ window_df df s e ≠ [] := by
      by_cases hps : p.1 < s
      · have hpm : p ∈ df.filter (fun q => decide (q.1 < s)) :=
          List.mem_filter.mpr ⟨hp, by simpa using hps⟩
        obtain ⟨a, ha⟩ := exists_getLast?_of_ne_nil _ (List.ne_nil_of_mem hpm)
        rw [first_event_head_eq ha]
        simp
      · have hpm : p ∈ window_df df s e :=
          List.mem_filter.mpr ⟨hp, by simp [not_lt.mp hps, hpe]⟩
        intro hc
        rw [List.append_eq_nil] at hc
        rw [hc.2] at hpm
        exact absurd hpm (List.not_mem_nil p)
    obtain ⟨r, hr⟩ := exists_getLast?_of_ne_nil _ hdf2
    have htl : last_event_tail (first_event_head df s ++ window_df df s e) e = [(e, r.2)] := by
      unfold last_event_tail
      rw [df2_filter_le_eq_self df s e hse, hr]
    refine ⟨(e, r.2), ?_, rfl⟩
    rw [hsq, htl]
    exact List.mem_append_right _ (by simp)

theorem squash_window_coverage_witness :
    (∃ q ∈ squash_into_window [((0:ℚ), (5:ℤ))] (1, 2), q.1 = 1) ∧
    (∃ q ∈ squash_into_window [((0:ℚ), (5:ℤ))] (1, 2), q.1 = 2) := by
  have h := squash_window_coverage [((0:ℚ), (5:ℤ))] 1 2 (by norm_num)
  exact ⟨h.1 ⟨(0, 5), by simp, by norm_num⟩, h.2 ⟨(0, 5), by simp, by norm_num⟩⟩

/-- For a series sorted non-decreasing by timestamp, the rows before the window
end split positionally into the rows before the window start followed by the
rows inside the window. -/
lemma filter_lt_split {α : Type} (s e : ℚ) (hse : s ≤ e) :
    ∀ df : List (ℚ × α), List.Pairwise (fun p q : ℚ × α => p.1 ≤ q.1) df →
      df.filter (fun q => q.1 < e) = df.filter (fun q => q.1 < s) ++ window_df df s e := by
  intro df
  induction df with
  | nil => intro _; rfl
  | cons x rest ih =>
    intro hp
    rcases List.pairwise_cons.mp hp with ⟨hx, hrest⟩
    unfold window_df at ih ⊢
    by_cases h1 : x.1 < s
    · have h2 : x.1 < e := lt_of_lt_of_le h1 hse
      simp only [List.filter_cons, decide_eq_true_eq]
      rw [if_pos h2, if_pos h1, if_neg (fun hc => absurd hc.1 (not_le.mpr h1))]
      rw [ih hrest]
      rfl
    · have hxs : s ≤ x.1 := not_lt.mp h1
      have hnil : rest.filter (fun q => decide (q.1 < s)) = [] := by
        apply List.filter_eq_nil_iff.mpr
        intro q hq
        simpa using not_lt.mpr (le_trans hxs (hx q hq))
      by_cases h2 : x.1 < e
      · have hcong : rest.filter (fun q => decide (q.1 < e))
            = rest.filter (fun q => decide (s ≤ q.1 ∧ q.1 < e)) := by
          apply List.filter_congr
          intro q hq
          have hsq : s ≤ q.1 := le_trans hxs (hx q hq)
          simp [hsq]
        simp only [List.filter_cons, decide_eq_true_eq]
        rw [if_pos h2, if_neg h1, if_pos ⟨hxs, h2⟩, hnil, hcong]
        rfl
      · have hxe : e ≤ x.1 := not_lt.mp h2
        have hreste : rest.filter (fun q => decide (q.1 < e)) = [] := by
          apply List.filter_eq_nil_iff.mpr
          intro q hq
          simpa using not_lt.mpr (le_trans hxe (hx q hq))
        have hrestw : rest.filter (fun q => decide (s ≤ q.1 ∧ q.1 < e)) = [] := by
          apply List.filter_eq_nil_iff.mpr
          intro q hq
          simp only [decide_eq_true_eq, not_and, not_lt]
          intro _
          exact le_trans hxe (hx q hq)
        simp only [List.filter_cons, decide_eq_true_eq]
        rw [if_neg h2, if_neg h1, if_neg (fun hc => h2 hc.2), hnil, hreste, hrestw]
        rfl

/-- Claim C7 (amended): if the output contains an entry at timestamp end, its
value is the value of the last input entry with timestamp strictly before end
(an input entry exactly at end is never consulted: the window slice uses
index < end and the end boundary row is taken from the concatenated
head-plus-window frame). -/
theorem squash_end_value_strictly_before {α : Type} (df : List (ℚ × α)) (s e : ℚ)
    (hsorted : List.Pairwise (fun p q : ℚ × α => p.1 ≤ q.1) df) (hse : s ≤ e)
    (p : ℚ × α) (hp : p ∈ squash_into_window df (s, e)) (hpe : p.1 = e) :
    ((df.filter (fun q => q.1 < e)).getLast?).map Prod.snd = some p.2 := by
  have hsq : squash_into_window df (s, e)
      = (first_event_head df s ++ window_df df s e)
        ++ last_event_tail (first_event_head df s ++ window_df df s e) e := rfl
  have hsplit := filter_lt_split s e hse df hsorted
  rw [hsq] at hp
  rcases List.mem_append.mp hp with hp2 | hptail
  · rcases List.mem_append.mp hp2 with hphead | hpw
    · -- p is the start-boundary row, so s = e and the window slice is empty
      unfold first_event_head at hphead
      rcases hF : (df.filter (fun r => decide (r.1 < s))).getLast? with _ | a
      · rw [hF] at hphead
        exact absurd hphead (List.not_mem_nil p)
      · rw [hF] at hphead
        have hpa : p = (s, a.2) := by simpa using hphead
        have hs_eq : s = e := by
          rw [hpa] at hpe
          exact hpe
        have hw : window_df df s e = [] := by
          apply List.filter_eq_nil_iff.mpr
          intro q hq
          simp only [decide_eq_true_eq, not_and, not_lt]
          intro hq1
          rw [← hs_eq]
          exact hq1
        rw [hsplit, hw, List.append_nil, hF]
        simp [hpa]
    · -- impossible: window rows have timestamp strictly below end
      have hq2 := (List.mem_filter.mp hpw).2
      rw [hpe] at hq2
      simp at hq2
  · -- p is the end-boundary row
    unfold last_event_tail at hptail
    rw [df2_filter_le_eq_self df s e hse] at hptail
    rcases hT : (first_event_head df s ++ window_df df s e).getLast? with _ | r
    · rw [hT] at hptail
      exact absurd hptail (List.not_mem_nil p)
    · rw [hT] at hptail
      have hpr : p = (e, r.2) := by simpa using hptail
      rcases hW : window_df df s e with _ | ⟨w, W'⟩
      · -- empty window: the end row copies the start-boundary row
        rw [hW, List.append_nil] at hT
        unfold first_event_head at hT
        rcases hF : (df.filter (fun x => decide (x.1 < s))).getLast? with _ | a
        · rw [hF] at hT
          exact absurd hT (by simp)
        · rw [hF] at hT
          have hra : r = (s, a.2) := by
            have h2 : (s, a.2) = r := by simpa using hT
            exact h2.symm
          rw [hsplit, hW, List.append_nil, hF]
          simp [hpr, hra]
      · -- nonempty window: the end row copies the last window row
        have hWne : window_df df s e ≠ [] := by
          rw [hW]
          simp
        obtain ⟨b, hb⟩ := exists_getLast?_of_ne_nil _ hWne
        rw [List.getLast?_append, hb] at hT
        simp only [Option.or_some] at hT
        have hrb : r = b := by
          injection hT with h
          exact h.symm
        rw [hsplit, List.getLast?_append, hb]
        simp [hpr, hrb]

theorem squash_end_value_strictly_before_witness :
    (([((0:ℚ), (5:ℤ)), (2, 7)].filter (fun q => q.1 < 2)).getLast?).map Prod.snd =
      some 5 :=
  squash_end_value_strictly_before [((0:ℚ), (5:ℤ)), (2, 7)] 1 2
    (by norm_num) (by norm_num) (2, 5) (by decide) rfl

/-- For a sorted series containing an entry exactly at start, with start < end,
the window slice begins with the first entry at start. -/
lemma window_df_head_at_start {α : Type} (s e : ℚ) (hse : s < e) :
    ∀ df : List (ℚ × α), List.Pairwise (fun p q : ℚ × α => p.1 ≤ q.1) df →
      ∀ q₂ : ℚ × α, df.find? (fun q => q.1 = s) = some q₂ →
      ∃ W', window_df df s e = q₂ :: W' := by
  intro df
  induction df with
  | nil =>
    intro _ q₂ h
    exact absurd h (by simp)
  | cons x rest ih =>
    intro hp q₂ hfind
    rcases List.pairwise_cons.mp hp with ⟨hx, hrest⟩
    by_cases hxeq : x.1 = s
    · have hq2x : q₂ = x := by
        rw [List.find?_cons_of_pos _ (by simpa using hxeq)] at hfind
        injection hfind with h
        exact h.symm
      refine ⟨rest.filter (fun q => s ≤ q.1 ∧ q.1 < e), ?_⟩
      unfold window_df
      rw [List.filter_cons, if_pos (by simp only [decide_eq_true_eq]; exact ⟨le_of_eq hxeq.symm, hxeq ▸ hse⟩), hq2x]
    · have hfind' : rest.find? (fun q => decide (q.1 = s)) = some q₂ := by
        rw [List.find?_cons_of_neg _ (by simpa using hxeq)] at hfind
        exact hfind
      by_cases hxs : x.1 < s
      · obtain ⟨W', hW'⟩ := ih hrest q₂ hfind'
        refine ⟨W', ?_⟩
        unfold window_df at hW' ⊢
        rw [List.filter_cons, if_neg (by simp only [decide_eq_true_eq, not_and]; intro hc; exact absurd hc (not_le.mpr hxs)), hW']
      · have hxgt : s < x.1 := lt_of_le_of_ne (not_lt.mp hxs) (fun h => hxeq h.symm)
        have hq2mem := List.mem_of_find?_eq_some hfind'
        have hq2s : q₂.1 = s := by simpa using List.find?_some hfind'
        have hle := hx q₂ hq2mem
        rw [hq2s] at hle
        exact absurd hle (not_le.mpr hxgt)

/-- Claim C10 (amended): for a sorted series with an entry strictly before
start and an entry exactly at start, and a window with start < end, the output
begins with two entries timestamped start: the relabeled copy of the last
pre-window entry, immediately followed by the first original entry at start.
(When start = end the entry at start is excluded from the window slice and the
output instead holds two relabeled copies of the pre-window entry.) -/
theorem squash_double_start_entries {α : Type} (df : List (ℚ × α)) (s e : ℚ)
    (hsorted : List.Pairwise (fun p q : ℚ × α => p.1 ≤ q.1) df) (hse : s < e)
    (q₁ q₂ : ℚ × α)
    (h1 : (df.filter (fun q => q.1 < s)).getLast? = some q₁)
    (h2 : df.find? (fun q => q.1 = s) = some q₂) :
    (squash_into_window df (s, e)).take 2 = [(s, q₁.2), (s, q₂.2)] := by
  have hsq : squash_into_window df (s, e)
      = (first_event_head df s ++ window_df df s e)
        ++ last_event_tail (first_event_head df s ++ window_df df s e) e := rfl
  obtain ⟨W', hW⟩ := window_df_head_at_start s e hse df hsorted q₂ h2
  have hq2s : q₂.1 = s := by simpa using List.find?_some h2
  have hq2eta : ((s, q₂.2) : ℚ × α) = q₂ := by
    rw [← hq2s]
  rw [hsq, first_event_head_eq h1, hW]
  rw [show ((s, q₂.2) : ℚ × α) = q₂ from hq2eta]
  rfl

theorem squash_double_start_entries_witness :
    (squash_into_window [((0:ℚ), (5:ℤ)), (1, 6), (3, 8)] (1, 2)).take 2 =
      [(1, 5), (1, 6)] :=
  squash_double_start_entries [((0:ℚ), (5:ℤ)), (1, 6), (3, 8)] 1 2
    (by decide) (by decide) (0, 5) (1, 6) (by decide) (by decide)

lemma getD_append_length (X t : List ℚ) (y : ℚ) :
    (X ++ y :: t).getD X.length 0 = y := by
  induction X with
  | nil => rfl
  | cons a X ih => simpa using ih

lemma set_append_length (X t : List ℚ) (y v : ℚ) :
    (X ++ y :: t).set X.length v = X ++ v :: t := by
  induction X with
  | nil => rfl
  | cons a X ih => simp [ih]

/-- Running the doubling while loop over a block of `m` equal entries `d`
starting right at the block: the k-th entry of the block (k = 0, ..., m-1)
becomes `d + 2^k * delta`. -/
lemma add_dup_deltas_replicate :
    ∀ (m : Nat) (X B : List ℚ) (d delta : ℚ),
      add_dup_deltas (X ++ List.replicate m d ++ B) X.length m delta
        = X ++ (List.range m).map (fun k => d + 2 ^ k * delta) ++ B := by
  intro m
  induction m with
  | zero =>
    intro X B d delta
    simp [add_dup_deltas]
  | succ k ih =>
    intro X B d delta
    have hstep : X ++ List.replicate (k + 1) d ++ B
        = X ++ d :: (List.replicate k d ++ B) := by
      simp [List.replicate_succ]
    rw [hstep, add_dup_deltas, getD_append_length, set_append_length]
    have hX2 : X ++ (d + delta) :: (List.replicate k d ++ B)
        = (X ++ [d + delta]) ++ List.replicate k d ++ B := by simp
    have hlen : X.length + 1 = (X ++ [d + delta]).length := by simp
    rw [hX2, hlen, ih]
    have hrange : (List.range (k + 1)).map (fun j : Nat => d + 2 ^ j * delta)
        = (d + delta) :: (List.range k).map (fun j : Nat => d + 2 ^ j * (delta + delta)) := by
      rw [List.range_succ_eq_map, List.map_cons, List.map_map]
      have hfun : (fun j : Nat => d + 2 ^ j * delta) ∘ Nat.succ
          = fun j : Nat => d + 2 ^ j * (delta + delta) := by
        funext j
        simp only [Function.comp_apply, pow_succ]
        ring
      rw [hfun]
      norm_num
    rw [hrange]
    simp

section SingleGroup

variable (A B : List ℚ) (d : ℚ) (n : Nat)

lemma searchsorted_left_group (hA : ∀ a ∈ A, a < d) (hB : ∀ b ∈ B, d < b) :
    searchsorted_left (A ++ List.replicate n d ++ B) d = A.length := by
  unfold searchsorted_left
  rw [List.filter_append, List.filter_append]
  rw [List.filter_eq_self.mpr (fun a ha => by simpa using hA a ha)]
  rw [List.filter_eq_nil_iff.mpr (fun x hx => by
        rw [List.eq_of_mem_replicate hx]
        simp)]
  rw [List.filter_eq_nil_iff.mpr (fun b hb => by
        simpa using not_lt.mpr (le_of_lt (hB b hb)))]
  simp

lemma searchsorted_right_group (hA : ∀ a ∈ A, a < d) (hB : ∀ b ∈ B, d < b) :
    searchsorted_right (A ++ List.replicate n d ++ B) d = A.length + n := by
  unfold searchsorted_right
  rw [List.filter_append, List.filter_append]
  rw [List.filter_eq_self.mpr (fun a ha => by simpa using le_of_lt (hA a ha))]
  rw [List.filter_eq_self.mpr (fun x hx => by
        rw [List.eq_of_mem_replicate hx]
        simp)]
  rw [List.filter_eq_nil_iff.mpr (fun b hb => by
        simpa using not_le.mpr (hB b hb))]
  simp

lemma count_group (hA : ∀ a ∈ A, a < d) (hB : ∀ b ∈ B, d < b) :
    (A ++ List.replicate n d ++ B).count d = n := by
  rw [List.count_append, List.count_append, List.count_replicate_self]
  rw [List.count_eq_zero.mpr (fun hd => absurd (hA d hd) (lt_irrefl d)),
      List.count_eq_zero.mpr (fun hd => absurd (hB d hd) (lt_irrefl d))]
  omega

lemma count_other (hA : ∀ a ∈ A, a < d) (hB : ∀ b ∈ B, d < b)
    (hAnd : A.Nodup) (hBnd : B.Nodup) {x : ℚ} (hx : x ≠ d) :
    (A ++ List.replicate n d ++ B).count x ≤ 1 := by
  rw [List.count_append, List.count_append, List.count_replicate,
      if_neg (by simpa using fun h => hx h.symm)]
  by_cases hmem : x ∈ A
  · have hxB : x ∉ B := fun hb => absurd (lt_trans (hA x hmem) (hB x hb)) (lt_irrefl x)
    rw [List.count_eq_zero.mpr hxB]
    have h1 := List.nodup_iff_count_le_one.mp hAnd x
    omega
  · rw [List.count_eq_zero.mpr hmem]
    have h1 := List.nodup_iff_count_le_one.mp hBnd x
    omega

lemma get_duplicates_single (hA : ∀ a ∈ A, a < d) (hB : ∀ b ∈ B, d < b)
    (hAnd : A.Nodup) (hBnd : B.Nodup) (hn : 2 ≤ n) :
    get_duplicates (A ++ List.replicate n d ++ B) = [d] := by
  unfold get_duplicates
  have hfc : (A ++ List.replicate n d ++ B).dedup.filter
        (fun x => decide (2 ≤ (A ++ List.replicate n d ++ B).count x))
      = (A ++ List.replicate n d ++ B).dedup.filter (fun x => decide (x = d)) := by
    apply List.filter_congr
    intro x _
    apply decide_eq_decide.mpr
    constructor
    · intro h2
      by_contra hne
      have hle := count_other A B d n hA hB hAnd hBnd hne
      omega
    · intro hxd
      rw [hxd, count_group A B d n hA hB]
      exact hn
  rw [hfc]
  have hmemd : d ∈ (A ++ List.replicate n d ++ B).dedup := by
    rw [List.mem_dedup]
    refine List.mem_append.mpr (Or.inl (List.mem_append.mpr (Or.inr ?_)))
    exact List.mem_replicate.mpr ⟨by omega, rfl⟩
  have hf : (A ++ List.replicate n d ++ B).dedup.filter (fun x => decide (x = d)) = [d] := by
    rw [List.filter_eq]
    rw [List.count_eq_one_of_mem (List.nodup_dedup _) hmemd]
    rfl
  rw [hf]
  rfl

lemma get_group_ceiling (B' : List ℚ) (b : ℚ)
    (h : A.length + n < (A ++ List.replicate n d ++ b :: B').length) :
    (A ++ List.replicate n d ++ b :: B').get ⟨A.length + n, h⟩ = b := by
  rw [List.get_eq_getElem]
  have heq : A ++ List.replicate n d ++ b :: B' = (A ++ List.replicate n d) ++ b :: B' := by
    rw [List.append_assoc]
  have hlen2 : (A ++ List.replicate n d).length = A.length + n := by simp
  exact List.getElem_of_append heq hlen2

end SingleGroup

lemma except_bind_ok {ε α β : Type} (a : α) (f : α → Except ε β) :
    (Except.ok a >>= f) = f a := rfl

/-- Processing the single duplicate group of a series `A ++ [d, ..., d] ++ B`
(all of `A` below `d`, all of `B` above `d`, `n` copies of `d`): the group run
is found exactly, the delta is the clamped `hdi_group_delta`, and the doubling
loop rewrites the last `n - 1` copies of `d`. -/
lemma process_dup_group (A B : List ℚ) (d : ℚ) (n : Nat) (max_delta : ℚ)
    (hA : ∀ a ∈ A, a < d) (hB : ∀ b ∈ B, d < b) (hn : 2 ≤ n) :
    process_dup max_delta (A ++ List.replicate n d ++ B) d
      = Except.ok ((A ++ [d]) ++ (List.range (n - 1)).map
          (fun k => d + 2 ^ k * hdi_group_delta B d n max_delta) ++ B) := by
  have hrep : List.replicate n d = d :: List.replicate (n - 1) d := by
    cases n with
    | zero => omega
    | succ m => rfl
  have hcur : A ++ List.replicate n d ++ B = (A ++ [d]) ++ List.replicate (n - 1) d ++ B := by
    rw [hrep]
    simp
  have hpos : A.length + 1 = (A ++ [d]).length := by simp
  simp only [process_dup]
  rw [searchsorted_left_group A B d n hA hB, searchsorted_right_group A B d n hA hB]
  have hnum : A.length + n - A.length = n := by omega
  rw [hnum]
  cases B with
  | nil =>
    rw [dif_neg (by
      simp only [List.length_append, List.length_replicate, List.length_nil]
      omega)]
    show Except.ok (add_dup_deltas (A ++ List.replicate n d ++ [])
        (A.length + 1) (n - 1) (if max_delta < max_delta then max_delta else max_delta)) = _
    rw [ite_self, hcur, hpos, add_dup_deltas_replicate]
    rfl
  | cons b B' =>
    have hcond : A.length + n < (A ++ List.replicate n d ++ b :: B').length := by
      simp only [List.length_append, List.length_replicate, List.length_cons]
      omega
    rw [dif_pos hcond]
    rw [if_neg (by omega : ¬ n = 0)]
    rw [get_group_ceiling A d n B' b hcond]
    show Except.ok (add_dup_deltas (A ++ List.replicate n d ++ b :: B') (A.length + 1) (n - 1)
        (if max_delta < (b - d) / (n : ℚ) then max_delta else (b - d) / (n : ℚ))) = _
    rw [hcur, hpos, add_dup_deltas_replicate]
    rfl

/-- `handle_duplicate_index` on a series whose duplicated timestamps form a
single group of `n` copies of `d`: the first copy is left at `d` and the k-th
of the remaining copies (k = 1, ..., n-1) is moved to `d + 2^(k-1) * delta`. -/
lemma hdi_new_index_single_group (A B : List ℚ) (d : ℚ) (n : Nat) (max_delta : ℚ)
    (hA : ∀ a ∈ A, a < d) (hB : ∀ b ∈ B, d < b) (hAnd : A.Nodup) (hBnd : B.Nodup)
    (hn : 2 ≤ n) :
    hdi_new_index (A ++ List.replicate n d ++ B) max_delta
      = Except.ok (A ++ d :: ((List.range (n - 1)).map
          (fun k => d + 2 ^ k * hdi_group_delta B d n max_delta) ++ B)) := by
  unfold hdi_new_index
  rw [get_duplicates_single A B d n hA hB hAnd hBnd hn]
  have hfold : (([d] : List ℚ).foldlM (process_dup max_delta) (A ++ List.replicate n d ++ B))
      = process_dup max_delta (A ++ List.replicate n d ++ B) d >>= fun s => pure s := rfl
  rw [hfold, process_dup_group A B d n max_delta hA hB hn]
  rw [except_bind_ok, List.append_assoc, List.append_assoc, List.singleton_append]
  rfl

/-- Claim C4 (amended): for a series whose duplicated timestamps form a single
duplicate group of n >= 2 entries sharing timestamp d, with per-group delta =
min((ceiling - d)/n, max_delta) (or delta = max_delta when the group ends the
series), handle_duplicate_index leaves the first entry at d and moves the k-th
of the remaining n - 1 entries (k = 1, ..., n-1) to d + 2^(k-1) * delta: the
added offset itself doubles at each entry (delta, 2*delta, 4*delta, ...), and
is not accumulated, so the k-th adjusted entry is not at d + (2^k - 1) * delta
as claimed. -/
theorem hdi_single_group_offsets (A B : List ℚ) (d : ℚ) (n : Nat) (max_delta : ℚ)
    (hA : ∀ a ∈ A, a < d) (hB : ∀ b ∈ B, d < b) (hAnd : A.Nodup) (hBnd : B.Nodup)
    (hn : 2 ≤ n) (_hmd : 0 < max_delta) :
    hdi_new_index (A ++ List.replicate n d ++ B) max_delta
      = Except.ok (A ++ d :: ((List.range (n - 1)).map
          (fun k => d + 2 ^ k *
            (match B with
             | [] => max_delta
             | b :: _ => min ((b - d) / (n : ℚ)) max_delta)) ++ B)) := by
  rw [hdi_new_index_single_group A B d n max_delta hA hB hAnd hBnd hn]
  cases B with
  | nil => rfl
  | cons b B' =>
    have hdelta : hdi_group_delta (b :: B') d n max_delta
        = min ((b - d) / (n : ℚ)) max_delta := by
      show (if max_delta < (b - d) / (n : ℚ) then max_delta else (b - d) / (n : ℚ)) = _
      rcases le_or_lt ((b - d) / (n : ℚ)) max_delta with h | h
      · rw [if_neg (not_lt.mpr h), min_eq_left h]
      · rw [if_pos h, min_eq_right (le_of_lt h)]
    rw [hdelta]

theorem hdi_single_group_offsets_witness :
    hdi_new_index [0, 1, 1, 1] 2 = Except.ok [0, 1, 3, 5] := by
  have h := hdi_single_group_offsets [0] [] 1 3 2 (by decide) (by decide)
    (by decide) (by decide) (by decide) (by decide)
  rw [show ([0] ++ List.replicate 3 (1:ℚ) ++ []) = [0, 1, 1, 1] from rfl] at h
  rw [h]
  decide

/-!
## Validation of the embedding against the repository's own tests

The following evaluations reproduce every scenario of `tests/test_utils.py`:
the docstring example, the duplicate-at-end test, and the five
`squash_into_window` tests. -/

example : hdi_new_index [0, 1, 1, 6, 7] (1/1000) =
    Except.ok [0, 1, 1 + 1/1000, 6, 7] := by decide
example : hdi_new_index [0, 1, 2, 6, 6] (1/1000) =
    Except.ok [0, 1, 2, 6, 6 + 1/1000] := by decide
example : hdi_new_index [0, 0, 0, 0, 4] 100 = Except.ok [0, 1, 2, 4, 4] := by decide
example : hdi_new_index [1, 1, 1] 1 = Except.ok [1, 2, 3] := by decide
example : squash_into_window [((0:ℚ),(5:ℤ)), (1,6), (2,7), (3,8), (4,9)] (21/10, 29/10) =
    [(21/10, 7), (29/10, 7)] := by decide
example : squash_into_window [((0:ℚ),(5:ℤ)), (1,6), (2,7), (3,8), (4,9)] (1/2, 29/10) =
    [(1/2, 5), (1, 6), (2, 7), (29/10, 7)] := by decide
example : squash_into_window [((0:ℚ),(5:ℤ)), (1,6)] (1/2, 29/10) =
    [(1/2, 5), (1, 6), (29/10, 6)] := by decide
example : squash_into_window [((1:ℚ),(6:ℤ)), (2,7)] (1/2, 29/10) =
    [(1, 6), (2, 7), (29/10, 7)] := by decide
example : squash_into_window [((0:ℚ),(5:ℤ)), (1,6)] (1/10, 9/10) =
    [(1/10, 5), (9/10, 5)] := by decide
